import Mathlib

/-!
Verification of the static code analyzer (task/analyzer/code_analyzer_base.py
and task/analyzer/code_analyzer.py) against its specification.

The Python code is shallowly embedded: a physical line is a `List Char`
(a Python `str`), string helper methods are modelled character by character,
the abstract syntax tree produced by `ast.parse` is a `Node` datum carried by
the analyzed file, and the per-instance state `found_issues` is passed
explicitly.  Iteration over Python sets (the `requested_checks.intersection`
results) is modelled by quantifying over every duplicate-free enumeration of
the intersected set, which covers every order a Python set iteration could
produce.
-/

/-- A physical line of source text (a Python `str`), as its list of
characters. -/
abbrev Line := List Char

/-- Whitespace as recognized by the Python `str.strip`, `str.isspace` family,
restricted to the ASCII whitespace characters: space, tab, newline, carriage
return, vertical tab, form feed. -/
def isPySpace (c : Char) : Bool :=
  c = ' ' || c = '\t' || c = '\n' || c = '\r' || c = '\x0b' || c = '\x0c'

/-- Python `str.lstrip()`. -/
def pyLstrip (l : Line) : Line := l.dropWhile isPySpace

/-- Python `str.rstrip()`. -/
def pyRstrip (l : Line) : Line := (l.reverse.dropWhile isPySpace).reverse

/-- Python `str.strip()`. -/
def pyStrip (l : Line) : Line := pyRstrip (pyLstrip l)

/-- Python `str.isspace()`: nonempty and made of whitespace only. -/
def pyIsSpace (l : Line) : Bool := !l.isEmpty && l.all isPySpace

/-- Python `str.upper()`, character by character. -/
def pyUpper (l : Line) : Line := l.map Char.toUpper

/-- Python substring containment `sub in s`. -/
def pySubstr (sub : Line) : Line → Bool
  | [] => sub.isEmpty
  | c :: rest => sub.isPrefixOf (c :: rest) || pySubstr sub rest

/-- Python `s.split(sep, maxsplit)` for a one-character separator: the first
argument of the recursion is the number of splits still allowed. -/
def pySplitMax (sep : Char) : Nat → Line → List Line
  | 0, l => [l]
  | m + 1, l =>
    if sep ∈ l then
      l.takeWhile (· ≠ sep) :: pySplitMax sep m ((l.dropWhile (· ≠ sep)).tail)
    else [l]

/-- Python `s.split(sep)` without a `maxsplit` bound: allowing `l.length`
splits is enough for any input. -/
def pySplit (sep : Char) (l : Line) : List Line := pySplitMax sep l.length l

/-- Python `code.endswith(suffix)`. -/
def pyEndsWith (suffix l : Line) : Bool := suffix.isSuffixOf l

/-- The issue codes of the rule catalogue: the members of the `IssueType`
enum of code_analyzer_base.py.  (The message templates of the enum values are
not consulted by any claim and are not modelled.) -/
inductive IssueType where
  | S001 | S002 | S003 | S004 | S005 | S006
  | S007 | S008 | S009 | S010 | S011 | S012
deriving DecidableEq

/-- The `name` attribute of an enum member, e.g. `IssueType.S001.name =
"S001"`. -/
def IssueType.name : IssueType → String
  | .S001 => "S001"
  | .S002 => "S002"
  | .S003 => "S003"
  | .S004 => "S004"
  | .S005 => "S005"
  | .S006 => "S006"
  | .S007 => "S007"
  | .S008 => "S008"
  | .S009 => "S009"
  | .S010 => "S010"
  | .S011 => "S011"
  | .S012 => "S012"

/-- All registered issue codes, in registration order: `set(IssueType)` as a
duplicate-free list. -/
def registered_codes : List IssueType :=
  [.S001, .S002, .S003, .S004, .S005, .S006,
   .S007, .S008, .S009, .S010, .S011, .S012]

/-- The enum lookup `IssueType[name]`, returning `none` where Python raises
`KeyError`. -/
def issue_type_from_name (s : String) : Option IssueType :=
  registered_codes.find? (fun t => t.name == s)

/-- The `CodeIssue` dataclass: path, 1-indexed line, issue code, optional
message argument. -/
structure CodeIssue where
  path : String
  line : Nat
  type : IssueType
  str_arg : Option String
deriving DecidableEq

/-- Model of `BaseCodeAnalyzer.MAX_LINES`. -/
def MAX_LINES : Nat := 79

/-- Model of `BaseCodeAnalyzer.split_at_comment`: `line.split('#', maxsplit=2)`, then
the pair of the part before the first `#` and the part directly after it
(which therefore stops at a second `#` when one occurs). -/
def split_at_comment (l : Line) : Line × Line :=
  if '#' ∈ l then
    let split_at_first := pySplitMax '#' 2 l
    (split_at_first.getD 0 [], split_at_first.getD 1 [])
  else (l, [])

/-- Model of `BaseCodeAnalyzer.has_inline_comment`: the line splits at `#` into more
than one part and the part before the first `#` strips to a truthy (nonempty)
string. -/
def has_inline_comment (l : Line) : Bool :=
  let comment_split := pySplit '#' l
  comment_split.length > 1 && !(pyStrip (comment_split.getD 0 [])).isEmpty

/-- Model of `CodeAnalyzer.long_line` (S001). -/
def long_line (path : String) (line_no : Nat) (line : Line) : Option CodeIssue :=
  if line.length > MAX_LINES then some ⟨path, line_no, .S001, none⟩ else none

/-- Model of `CodeAnalyzer.indentation` (S002). -/
def indentation (path : String) (line_no : Nat) (line : Line) : Option CodeIssue :=
  if !pyIsSpace line && (line.length - (pyLstrip line).length) % 4 ≠ 0 then
    some ⟨path, line_no, .S002, none⟩
  else none

/-- Model of `CodeAnalyzer.semicolon` (S003): the code part of the comment split,
stripped, ends with a semicolon. -/
def semicolon (path : String) (line_no : Nat) (line : Line) : Option CodeIssue :=
  if pyEndsWith [';'] (pyStrip (split_at_comment line).1) then
    some ⟨path, line_no, .S003, none⟩
  else none

/-- Model of `CodeAnalyzer.missing_spaces` (S004): an inline comment whose code part
carries fewer than two trailing whitespace characters. -/
def missing_spaces (path : String) (line_no : Nat) (line : Line) : Option CodeIssue :=
  if has_inline_comment line &&
      (split_at_comment line).1.length - (pyRstrip (split_at_comment line).1).length < 2 then
    some ⟨path, line_no, .S004, none⟩
  else none

/-- Model of `CodeAnalyzer.todo` (S005): `"TODO" in comment.upper()` on the comment
part of the comment split. -/
def todo (path : String) (line_no : Nat) (line : Line) : Option CodeIssue :=
  if pySubstr "TODO".data (pyUpper (split_at_comment line).2) then
    some ⟨path, line_no, .S005, none⟩
  else none

/-- The loop of `CodeAnalyzer.blank_lines` (S006): a running blank-line
counter, reset at every non-blank line, emitting an issue at a non-blank line
preceded by more than two blank lines. -/
def blank_lines_loop (path : String) : Nat → List (Nat × Line) → List CodeIssue
  | _, [] => []
  | count_blank, (line_no, line) :: rest =>
    if pyStrip line = [] then blank_lines_loop path (count_blank + 1) rest
    else
      (if count_blank > 2 then [⟨path, line_no, .S006, none⟩] else []) ++
        blank_lines_loop path 0 rest

/-- Model of `CodeAnalyzer.blank_lines` over the enumerated physical lines. -/
def blank_lines (path : String) (lines : List Line) : List CodeIssue :=
  blank_lines_loop path 0 (List.enumFrom 1 lines)

/-- Kinds of ast expression nodes occurring as assignment values or default
argument values in the model. -/
inductive PyExpr where
  | listLit | setLit | dictLit | nameExpr (id : String) | constLit | otherExpr
deriving DecidableEq

/-- The ast class objects of the list
`BaseCodeAnalyzer.mutable_types = [ast.List, ast.Set, ast.Dict]`. -/
inductive AstClass where
  | listC | setC | dictC
deriving DecidableEq

/-- Model of `BaseCodeAnalyzer.mutable_types`. -/
def mutable_types : List AstClass := [.listC, .setC, .dictC]

/-- Model of `BaseCodeAnalyzer.is_mutable_type`: `type(var) in cls.mutable_types` for
an expression node, true exactly for list, set and dict literals. -/
def is_mutable_type (e : PyExpr) : Bool :=
  match e with
  | .listLit | .setLit | .dictLit => true
  | _ => false

/-- Python `==` between an ast node object and an ast class object, as used by
the membership test `node.value in self.mutable_types` of
`CodeAnalyzer.snake_case_var`: ast nodes do not override `__eq__`, so `==` is
object identity there, and a node instance is never identical to one of the
class objects `ast.List`, `ast.Set`, `ast.Dict`.  The test is therefore false
for every value node. -/
def pyEqNodeClass (e : PyExpr) (c : AstClass) : Bool := false

/-- The membership test `node.value in self.mutable_types` exactly as the
source evaluates it (element-wise `==` against the class objects). -/
def value_in_mutable_types (e : PyExpr) : Bool :=
  mutable_types.any (pyEqNodeClass e)

/-- A target of an `ast.Assign` node: an `ast.Name`, an `ast.Tuple` (for
unpacking targets), or another expression node. -/
inductive AstTarget where
  | nameT (id : String)
  | tupleT (ids : List String)
  | otherT
deriving DecidableEq

/-- The statement nodes of the parsed tree that the analyzer distinguishes:
`ast.Module`, `ast.ClassDef`, `ast.FunctionDef`, `ast.Assign`, and any other
statement (modelled with its child statements).  `srcSeg` is the source text
`ast.get_source_segment(codebase, node)` of a definition node;
`lineno` is the 1-indexed defining line. -/
inductive Node where
  | module (body : List Node)
  | classDef (name : String) (lineno : Nat) (srcSeg : String) (body : List Node)
  | functionDef (name : String) (lineno : Nat) (srcSeg : String)
      (args : List String) (defaults : List PyExpr) (body : List Node)
  | assign (lineno : Nat) (targets : List AstTarget) (value : PyExpr)
  | otherStmt (lineno : Nat) (body : List Node)

/-- The `lineno` attribute (the module node never contributes an issue, so its
value is irrelevant; 1 is used). -/
def Node.lineno : Node → Nat
  | .module _ => 1
  | .classDef _ ln _ _ => ln
  | .functionDef _ ln _ _ _ _ => ln
  | .assign ln _ _ => ln
  | .otherStmt ln _ => ln

/-- Model of `ast.iter_child_nodes`, restricted to the statement bodies: expression
children (targets, values, argument nodes) are never of a kind listed in
`ast_analyzers`, so they are never checked and the parent references assigned
to them are never consulted; omitting them changes no observable of the
analysis. -/
def Node.body_children : Node → List Node
  | .module b => b
  | .classDef _ _ _ b => b
  | .functionDef _ _ _ _ _ b => b
  | .assign _ _ _ => []
  | .otherStmt _ b => b

mutual

/-- The number of nodes of a tree (used as traversal fuel below). -/
def Node.size : Node → Nat
  | .module b => 1 + Node.sizeList b
  | .classDef _ _ _ b => 1 + Node.sizeList b
  | .functionDef _ _ _ _ _ b => 1 + Node.sizeList b
  | .assign _ _ _ => 1
  | .otherStmt _ b => 1 + Node.sizeList b

/-- The total number of nodes of a list of trees. -/
def Node.sizeList : List Node → Nat
  | [] => 0
  | n :: rest => Node.size n + Node.sizeList rest

end

/-- The queue-based breadth-first traversal of `ast.walk`, paired with the
parent reference that `ast_node_analysis` assigns to every child before that
child is dequeued (the root has none).  The fuel argument bounds the number of
dequeue steps; `ast_walk` passes the number of nodes of the tree, which is
exactly the number of dequeue steps of the traversal, so the traversal always
runs to completion. -/
def walk_bfs : Nat → List (Node × Option Node) → List (Node × Option Node)
  | 0, _ => []
  | _ + 1, [] => []
  | fuel + 1, (n, p) :: queue =>
    (n, p) :: walk_bfs fuel (queue ++ n.body_children.map (fun c => (c, some n)))

/-- Model of `ast.walk` with the parent assignment of `ast_node_analysis`. -/
def ast_walk (tree : Node) : List (Node × Option Node) :=
  walk_bfs tree.size [(tree, none)]

/-- Model of `type(node.parent) is ast.FunctionDef`. -/
def parent_is_function_def : Option Node → Bool
  | some (.functionDef _ _ _ _ _ _) => true
  | _ => false

/-- A word character of the `re` module pattern class `\w` (ASCII): a letter,
a digit, or an underscore. -/
def isWordChar (c : Char) : Bool := c.isAlphanum || c = '_'

/-- Model of `re.match` of `snake_violation_pattern`, the regular expression
`((\w*[A-Z]+\w*)+)`, at the start of `s`: the pattern matches exactly when the
leading run of word characters contains an uppercase letter. -/
def snake_violation_match (s : String) : Bool :=
  (s.data.takeWhile isWordChar).any Char.isUpper

/-- The lookahead body `[A-Z]+[a-z]+` of `camel_violation_pattern`, matched at
the start: a nonempty run of uppercase letters directly followed by a
lowercase letter. -/
def upper_lower_start (l : Line) : Bool :=
  (l.takeWhile Char.isUpper).length ≥ 1 &&
    (match l.dropWhile Char.isUpper with
     | c :: _ => c.isLower
     | [] => false)

/-- The scan for the `\w+_\w+` alternative of `camel_violation_pattern`,
started after a first word character: looks for an underscore directly
followed by a word character, moving over word characters. -/
def underscore_scan : Line → Bool
  | [] => false
  | [_] => false
  | a :: b :: rest =>
    (a = '_' && isWordChar b) || (isWordChar a && underscore_scan (b :: rest))

/-- Model of `re.match` of the alternative `\w+_\w+` at the start of the name: an
underscore strictly inside the leading word-character run, with a word
character on each side (note an underscore is itself a word character). -/
def underscore_inside : Line → Bool
  | c :: rest => isWordChar c && underscore_scan rest
  | [] => false

/-- Model of `re.match` of `camel_violation_pattern`, the regular expression
`((?!([A-Z]+[a-z]+))|\w+_\w+)`, at the start of `s`: the first alternative is
an empty match guarded by a negative lookahead, so the whole pattern matches
exactly when the name does not start with uppercase letters followed by a
lowercase letter, or contains an embedded underscore between word
characters. -/
def camel_violation_match (s : String) : Bool :=
  !upper_lower_start s.data || underscore_inside s.data

/-- The keyword test of the S007 pattern `(def|class)\s\x7b2\x7d\s*(\w+)`
after one alternative of the keyword group has matched: at least two
whitespace characters, then a word character. -/
def two_spaces_then_word (l : Line) : Bool :=
  (l.takeWhile isPySpace).length ≥ 2 &&
    (match l.dropWhile isPySpace with
     | c :: _ => isWordChar c
     | [] => false)

/-- Model of `re.match` of the S007 pattern `(def|class)\s\x7b2\x7d\s*(\w+)` at the
start of the stripped source segment. -/
def too_many_spaces_match (l : Line) : Bool :=
  ("def".data.isPrefixOf l && two_spaces_then_word (l.drop 3)) ||
    ("class".data.isPrefixOf l && two_spaces_then_word (l.drop 5))

/-- Model of `CodeAnalyzer.too_many_spaces` (S007), on the data of a class or function
definition node. -/
def too_many_spaces (path name : String) (lineno : Nat) (srcSeg : String) :
    Option CodeIssue :=
  if too_many_spaces_match (pyStrip srcSeg.data) then
    some ⟨path, lineno, .S007, some name⟩
  else none

/-- Model of `CodeAnalyzer.camel_case_check` (S008). -/
def camel_case_check (path name : String) (lineno : Nat) : Option CodeIssue :=
  if camel_violation_match name then some ⟨path, lineno, .S008, some name⟩ else none

/-- Model of `CodeAnalyzer.snake_case_fct` (S009). -/
def snake_case_fct (path name : String) (lineno : Nat) : Option CodeIssue :=
  if snake_violation_match name then some ⟨path, lineno, .S009, some name⟩ else none

/-- Model of `CodeAnalyzer.snake_case_args` (S010): one issue per violating argument
name, in argument order. -/
def snake_case_args (path : String) (lineno : Nat) (args : List String) :
    List CodeIssue :=
  (args.filter (fun a => snake_violation_match a)).map
    (fun a => ⟨path, lineno, .S010, some a⟩)

/-- Model of `CodeAnalyzer.snake_case_var` (S011).  `is_value_mutable` is the
membership test `node.value in self.mutable_types` exactly as Python
evaluates it (see `pyEqNodeClass`).  The `case list() | tuple()` arm of the
source match statement can never fire, because the elements of `node.targets`
are ast nodes and not Python lists or tuples, so only `ast.Name` targets
contribute; a fall-through return of `None` is modelled as `[]`. -/
def snake_case_var (path : String) (lineno : Nat) (targets : List AstTarget)
    (value : PyExpr) (parent : Option Node) : List CodeIssue :=
  let is_value_mutable := value_in_mutable_types value
  if is_value_mutable || parent_is_function_def parent then
    (targets.filterMap (fun t =>
      match t with
      | .nameT id => if snake_violation_match id then some id else none
      | _ => none)).map (fun id => ⟨path, lineno, .S011, some id⟩)
  else []

/-- Model of `CodeAnalyzer.mutable_default` (S012): one issue for the function when any
default value is a mutable literal. -/
def mutable_default (path : String) (lineno : Nat) (defaults : List PyExpr) :
    Option CodeIssue :=
  if defaults.any is_mutable_type then some ⟨path, lineno, .S012, none⟩ else none

/-- The `single_line_analyzer` dictionary: dispatch of a requested code to its
line rule.  Codes that are not keys of the dictionary yield `none` (the
intersection with the key set keeps them from ever being dispatched). -/
def single_line_analyzer (path : String) (t : IssueType) (line_no : Nat)
    (line : Line) : Option CodeIssue :=
  match t with
  | .S001 => long_line path line_no line
  | .S002 => indentation path line_no line
  | .S003 => semicolon path line_no line
  | .S004 => missing_spaces path line_no line
  | .S005 => todo path line_no line
  | _ => none

/-- The `bulk_analyzer` dictionary: dispatch of a requested code to its
whole-file rule. -/
def bulk_analyzer (path : String) (t : IssueType) (lines : List Line) :
    List CodeIssue :=
  match t with
  | .S006 => blank_lines path lines
  | _ => []

/-- The `ast_analyzers` dictionary: dispatch of a requested code to its node
rule, on a walked node together with its assigned parent reference.  The pair
(code, node kind) determines the entry; pairs without an entry yield `[]`. -/
def node_analyzer (path : String) (t : IssueType) :
    Node × Option Node → List CodeIssue
  | (.classDef name lineno srcSeg _, _) =>
    match t with
    | .S007 => (too_many_spaces path name lineno srcSeg).toList
    | .S008 => (camel_case_check path name lineno).toList
    | _ => []
  | (.functionDef name lineno srcSeg args defaults _, _) =>
    match t with
    | .S007 => (too_many_spaces path name lineno srcSeg).toList
    | .S009 => (snake_case_fct path name lineno).toList
    | .S010 => snake_case_args path lineno args
    | .S012 => (mutable_default path lineno defaults).toList
    | _ => []
  | (.assign lineno targets value, parent) =>
    match t with
    | .S011 => snake_case_var path lineno targets value parent
    | _ => []
  | _ => []

/-- The key sets of the per-granularity analyzer dictionaries. -/
def single_line_keys : List IssueType := [.S001, .S002, .S003, .S004, .S005]

/-- Key set of `bulk_analyzer`. -/
def bulk_keys : List IssueType := [.S006]

/-- Key set of `ast_analyzers[ast.ClassDef]`. -/
def class_keys : List IssueType := [.S007, .S008]

/-- Key set of `ast_analyzers[ast.FunctionDef]`. -/
def func_keys : List IssueType := [.S007, .S009, .S010, .S012]

/-- Key set of `ast_analyzers[ast.Assign]`. -/
def assign_keys : List IssueType := [.S011]

/-- One enumeration order for each Python set the engine iterates over: the
intersection of the requested checks with the keys of each analyzer
dictionary.  Python set iteration yields each element exactly once in an
unspecified order; theorems quantify over all such enumerations. -/
structure Orders where
  lineOrder : List IssueType
  bulkOrder : List IssueType
  classOrder : List IssueType
  funcOrder : List IssueType
  assignOrder : List IssueType

/-- The list is a duplicate-free enumeration of the intersection of the
requested set with the given key set. -/
def ValidOrder (req : IssueType → Bool) (keys o : List IssueType) : Prop :=
  o.Nodup ∧ ∀ t, t ∈ o ↔ (req t = true ∧ t ∈ keys)

/-- Every component of `Orders` enumerates the corresponding intersection. -/
def ValidOrders (req : IssueType → Bool) (o : Orders) : Prop :=
  ValidOrder req single_line_keys o.lineOrder ∧
  ValidOrder req bulk_keys o.bulkOrder ∧
  ValidOrder req class_keys o.classOrder ∧
  ValidOrder req func_keys o.funcOrder ∧
  ValidOrder req assign_keys o.assignOrder

/-- Model of `BaseCodeAnalyzer.line_by_line_analysis`: for every physical line (in
order, 1-indexed) every selected line rule is dispatched; a returned issue is
appended. -/
def line_by_line_analysis (path : String) (lines : List Line) (o : Orders) :
    List CodeIssue :=
  (List.enumFrom 1 lines).bind (fun nl =>
    o.lineOrder.bind (fun t => (single_line_analyzer path t nl.1 nl.2).toList))

/-- Model of `BaseCodeAnalyzer.bulk_analysis`: every selected whole-file rule is run
once and its issues extended onto `found_issues`. -/
def bulk_analysis (path : String) (lines : List Line) (o : Orders) :
    List CodeIssue :=
  o.bulkOrder.bind (fun t => bulk_analyzer path t lines)

/-- The set `requested_checks.intersection(node_analyzers.keys())` of
`check_node`, as the enumeration belonging to the kind of the node. -/
def order_for : Node → Orders → List IssueType
  | .classDef _ _ _ _, o => o.classOrder
  | .functionDef _ _ _ _ _ _, o => o.funcOrder
  | .assign _ _ _, o => o.assignOrder
  | _, _ => []

/-- Model of `BaseCodeAnalyzer.check_node`: dispatch every selected code of the node
kind on the node; single issues are appended, issue lists extended. -/
def check_node (path : String) (o : Orders) (item : Node × Option Node) :
    List CodeIssue :=
  (order_for item.1 o).bind (fun t => node_analyzer path t item)

/-- Model of `BaseCodeAnalyzer.ast_node_analysis`: `ast.parse` is not guarded, so a
parse failure raises and escapes (the `Except.error` case); otherwise every
walked node of a checked kind is dispatched in traversal order. -/
def ast_node_analysis (path : String) (parsed : Except String Node)
    (o : Orders) : Except String (List CodeIssue) :=
  match parsed with
  | .error e => .error e
  | .ok tree => .ok ((ast_walk tree).bind (check_node path o))

/-- One analyzed file: its path, the physical lines
`self.codebase.splitlines()`, and the result of `ast.parse(self.codebase)`
(`Except.error` when the codebase does not parse, carrying the message of the
raised `SyntaxError`). -/
structure SourceFile where
  path : String
  lines : List Line
  parsed : Except String Node

/-- Model of `BaseCodeAnalyzer.analyze` as the caller observes it: the line pass, the
bulk pass, then the ast pass, their issues appended in that order.  On a parse
failure the exception of `ast.parse` escapes `analyze` (the `Except.error`
case); the issues already appended by the first two passes remain in
`found_issues`, but the caller never reaches `get_issues`. -/
def analyze_run (f : SourceFile) (o : Orders) : Except String (List CodeIssue) :=
  match ast_node_analysis f.path f.parsed o with
  | .error e => .error e
  | .ok astIssues =>
    .ok (line_by_line_analysis f.path f.lines o ++
      bulk_analysis f.path f.lines o ++ astIssues)

/-- The mutation of `found_issues` performed by one `analyze` call on an
analyzer instance whose current `found_issues` is `st` (the ast pass
contributes only when the parse succeeds; on a failure the exception escapes
after the first two passes have appended). -/
def analyze_found (f : SourceFile) (o : Orders) (st : List CodeIssue) :
    List CodeIssue :=
  st ++ line_by_line_analysis f.path f.lines o ++
    bulk_analysis f.path f.lines o ++
    (match ast_node_analysis f.path f.parsed o with
     | .ok astIssues => astIssues
     | .error _ => [])

/-- Stable insertion into a sorted list: the new element goes in front of the
first element it compares less-or-equal to. -/
def pyInsert (leb : α → α → Bool) (x : α) : List α → List α
  | [] => [x]
  | y :: ys => if leb x y then x :: y :: ys else y :: pyInsert leb x ys

/-- Stable ascending sort, modelling Python `list.sort(key=...)`: ascending in
the key order, and among elements with equal keys the original order is
kept. -/
def pySort (leb : α → α → Bool) : List α → List α
  | [] => []
  | x :: xs => pyInsert leb x (pySort leb xs)

/-- Lexicographic less-or-equal on character lists by code point: the order
Python uses to compare `str` values. -/
def clistLe : List Char → List Char → Bool
  | [], _ => true
  | _ :: _, [] => false
  | a :: as, b :: bs =>
    if a.toNat < b.toNat then true
    else if b.toNat < a.toNat then false
    else clistLe as bs

/-- Python string comparison `a <= b`. -/
def pyStrLe (a b : String) : Bool := clistLe a.data b.data

/-- The sort key `lambda i: (i.line, i.type.name)` of `get_issues`. -/
def issue_key (i : CodeIssue) : Nat × String := (i.line, i.type.name)

/-- Python tuple comparison on `(line, name)` keys. -/
def key_le (a b : Nat × String) : Bool :=
  a.1 < b.1 || (a.1 == b.1 && pyStrLe a.2 b.2)

/-- The element comparison of the `get_issues` sort. -/
def line_code_le (a b : CodeIssue) : Bool := key_le (issue_key a) (issue_key b)

/-- Model of `BaseCodeAnalyzer.get_issues`: sorts `found_issues` in place by
`(line, type.name)` and returns it. -/
def get_issues (found_issues : List CodeIssue) : List CodeIssue :=
  pySort line_code_le found_issues

/-- The element comparison of the `analyze_multi` sort
(`key=lambda issue: issue.path`). -/
def path_le (a b : CodeIssue) : Bool := pyStrLe a.path b.path

/-- Model of `analyze_single`: one analyzer, `analyze`, then the sorted `get_issues`
result (which `print_issues` reports); a parse failure escapes before
anything is reported. -/
def analyze_single (f : SourceFile) (o : Orders) :
    Except String (List CodeIssue) :=
  match analyze_run f o with
  | .error e => .error e
  | .ok issues => .ok (get_issues issues)

/-- The file loop of `analyze_multi`: each discovered file gets a fresh
analyzer, is analyzed, and its sorted `get_issues` list is extended onto the
combined list; an exception raised for any file escapes the loop and aborts
the whole scan. -/
def collect_multi : List (SourceFile × Orders) → Except String (List CodeIssue)
  | [] => .ok []
  | (f, o) :: rest =>
    match analyze_single f o with
    | .error e => .error e
    | .ok issues => (collect_multi rest).map (fun acc => issues ++ acc)

/-- Model of `analyze_multi`: the combined per-file lists, then
`issues.sort(key=lambda issue: issue.path)` — a stable sort on the path
alone. -/
def analyze_multi (files : List (SourceFile × Orders)) :
    Except String (List CodeIssue) :=
  (collect_multi files).map (pySort path_le)

/-- Python `str.strip()` on a `String`. -/
def pyStripStr (s : String) : String := ⟨pyStrip s.data⟩

/-- Python `str.upper()` on a `String`. -/
def pyUpperStr (s : String) : String := ⟨pyUpper s.data⟩

/-- The informational print `f"Excluding issue type {to_exclude.name}"`. -/
def excluding_msg (t : IssueType) : String := "Excluding issue type " ++ t.name

/-- The warning print
`f"Invalid argument: There is no issue type with code {exclude_str.strip()}"`. -/
def invalid_msg (tok : String) : String :=
  "Invalid argument: There is no issue type with code " ++ pyStripStr tok

/-- One iteration of the `for exclude_str in exclude_list` loop of
`filter_issue_types`, on the state (remaining selected codes, messages printed
so far).  `IssueType[name]` raises `KeyError` for an unknown name, and
`issue_types.remove` raises `KeyError` for an already-removed member; both are
caught by the same handler, which prints the warning. -/
def filter_step (st : List IssueType × List String) (tok : String) :
    List IssueType × List String :=
  let issue_type_name := pyUpperStr (pyStripStr tok)
  match issue_type_from_name issue_type_name with
  | some to_exclude =>
    if to_exclude ∈ st.1 then
      (st.1.erase to_exclude, st.2 ++ [excluding_msg to_exclude])
    else
      (st.1, st.2 ++ [excluding_msg to_exclude, invalid_msg tok])
  | none => (st.1, st.2 ++ [invalid_msg tok])

/-- The loop of `filter_issue_types` over the comma-split token list. -/
def filter_loop (init : List IssueType × List String) (toks : List String) :
    List IssueType × List String :=
  toks.foldl filter_step init

/-- Python `s.split(sep)` on a `String`. -/
def pySplitStr (sep : Char) (s : String) : List String :=
  (pySplit sep s.data).map (fun l => ⟨l⟩)

/-- Model of `filter_issue_types`: starts from `set(IssueType)`, and for a truthy
(nonempty) exclude argument processes every comma-separated token; returns
the remaining selected codes together with the printed messages. -/
def filter_issue_types (exclude_arg : String) :
    List IssueType × List String :=
  if exclude_arg ≠ "" then
    filter_loop (registered_codes, []) (pySplitStr ',' exclude_arg)
  else (registered_codes, [])

/-- Characters with equal code points are equal. -/
theorem char_toNat_inj {a b : Char} (h : a.toNat = b.toNat) : a = b := by
  have h2 := congrArg Char.ofNat h
  rwa [Char.ofNat_toNat, Char.ofNat_toNat] at h2

/-- The comparison `clistLe` is reflexive. -/
theorem clistLe_refl : ∀ l : List Char, clistLe l l = true
  | [] => rfl
  | _ :: as => by simp [clistLe, clistLe_refl as]

/-- The comparison `clistLe` is total. -/
theorem clistLe_total : ∀ a b : List Char, clistLe a b = true ∨ clistLe b a = true
  | [], _ => .inl rfl
  | _ :: _, [] => .inr rfl
  | a :: as, b :: bs => by
    rcases Nat.lt_trichotomy a.toNat b.toNat with h | h | h
    · left; simp [clistLe, h]
    · cases char_toNat_inj h
      rcases clistLe_total as bs with ih | ih
      · left; simp [clistLe, ih]
      · right; simp [clistLe, ih]
    · right; simp [clistLe, h]

/-- The comparison `clistLe` is transitive. -/
theorem clistLe_trans : ∀ a b c : List Char,
    clistLe a b = true → clistLe b c = true → clistLe a c = true
  | [], _, _, _, _ => rfl
  | _ :: _, [], _, hab, _ => by simp [clistLe] at hab
  | _ :: _, _ :: _, [], _, hbc => by simp [clistLe] at hbc
  | a :: as, b :: bs, c :: cs, hab, hbc => by
    simp only [clistLe] at hab hbc ⊢
    rcases Nat.lt_trichotomy a.toNat b.toNat with h1 | h1 | h1
    · rcases Nat.lt_trichotomy b.toNat c.toNat with h2 | h2 | h2
      · simp [Nat.lt_trans h1 h2]
      · simp [h2 ▸ h1]
      · simp [h2, Nat.lt_asymm h2] at hbc
    · rcases Nat.lt_trichotomy b.toNat c.toNat with h2 | h2 | h2
      · simp [h1 ▸ h2]
      · have hac : ¬ a.toNat < c.toNat := by omega
        have hca : ¬ c.toNat < a.toNat := by omega
        rw [if_neg hac, if_neg hca]
        rw [h1, if_neg (Nat.lt_irrefl _), if_neg (Nat.lt_irrefl _)] at hab
        rw [h2, if_neg (Nat.lt_irrefl _), if_neg (Nat.lt_irrefl _)] at hbc
        exact clistLe_trans as bs cs hab hbc
      · simp [h2, Nat.lt_asymm h2] at hbc
    · simp [h1, Nat.lt_asymm h1] at hab

/-- The comparison `clistLe` is antisymmetric. -/
theorem clistLe_antisymm : ∀ a b : List Char,
    clistLe a b = true → clistLe b a = true → a = b
  | [], [], _, _ => rfl
  | [], _ :: _, _, hba => by simp [clistLe] at hba
  | _ :: _, [], hab, _ => by simp [clistLe] at hab
  | a :: as, b :: bs, hab, hba => by
    rcases Nat.lt_trichotomy a.toNat b.toNat with h | h | h
    · simp [clistLe, h, Nat.lt_asymm h] at hba
    · cases char_toNat_inj h
      simp only [clistLe, Nat.lt_irrefl, if_neg, if_false] at hab hba
      simp_all [clistLe_antisymm as bs hab hba]
    · simp [clistLe, h, Nat.lt_asymm h] at hab

/-- The comparison `pyStrLe` is reflexive. -/
theorem pyStrLe_refl (s : String) : pyStrLe s s = true := clistLe_refl s.data

/-- The comparison `pyStrLe` is total. -/
theorem pyStrLe_total (a b : String) : pyStrLe a b = true ∨ pyStrLe b a = true :=
  clistLe_total a.data b.data

/-- The comparison `pyStrLe` is transitive. -/
theorem pyStrLe_trans {a b c : String} (h1 : pyStrLe a b = true)
    (h2 : pyStrLe b c = true) : pyStrLe a c = true :=
  clistLe_trans a.data b.data c.data h1 h2

/-- The comparison `pyStrLe` is antisymmetric. -/
theorem pyStrLe_antisymm {a b : String} (h1 : pyStrLe a b = true)
    (h2 : pyStrLe b a = true) : a = b := by
  cases a; cases b
  exact congrArg String.mk (clistLe_antisymm _ _ h1 h2)

/-- The comparison `key_le` is reflexive. -/
theorem key_le_refl (k : Nat × String) : key_le k k = true := by
  simp [key_le, pyStrLe_refl]

/-- The comparison `key_le` is total. -/
theorem key_le_total (a b : Nat × String) :
    key_le a b = true ∨ key_le b a = true := by
  by_cases h : a.1 = b.1
  · rcases pyStrLe_total a.2 b.2 with hs | hs
    · left; simp [key_le, h, hs]
    · right; simp [key_le, h.symm, hs]
  · rcases Nat.lt_or_ge a.1 b.1 with hl | hl
    · left; simp [key_le, hl]
    · right; simp [key_le]; omega

/-- The comparison `key_le` is transitive. -/
theorem key_le_trans {a b c : Nat × String} (h1 : key_le a b = true)
    (h2 : key_le b c = true) : key_le a c = true := by
  simp only [key_le, Bool.or_eq_true, Bool.and_eq_true, decide_eq_true_eq,
    beq_iff_eq] at h1 h2 ⊢
  rcases h1 with h1 | ⟨h1e, h1s⟩ <;> rcases h2 with h2 | ⟨h2e, h2s⟩
  · left; omega
  · left; omega
  · left; omega
  · right; exact ⟨h1e.trans h2e, pyStrLe_trans h1s h2s⟩

/-- The comparison `key_le` is antisymmetric. -/
theorem key_le_antisymm {a b : Nat × String} (h1 : key_le a b = true)
    (h2 : key_le b a = true) : a = b := by
  simp only [key_le, Bool.or_eq_true, Bool.and_eq_true, decide_eq_true_eq,
    beq_iff_eq] at h1 h2
  rcases h1 with h1 | ⟨h1e, h1s⟩ <;> rcases h2 with h2 | ⟨h2e, h2s⟩
  · omega
  · omega
  · omega
  · exact Prod.ext h1e (pyStrLe_antisymm h1s h2s)

/-- Inserting permutes to consing. -/
theorem pyInsert_perm {α : Type} (leb : α → α → Bool) (x : α) :
    ∀ l : List α, (pyInsert leb x l).Perm (x :: l)
  | [] => List.Perm.refl _
  | y :: ys => by
    by_cases h : leb x y = true
    · simp [pyInsert, h]
    · simp only [pyInsert, h, if_false, Bool.false_eq_true]
      exact ((pyInsert_perm leb x ys).cons y).trans (List.Perm.swap x y ys)

/-- The stable sort is a permutation of its input. -/
theorem pySort_perm {α : Type} (leb : α → α → Bool) :
    ∀ l : List α, (pySort leb l).Perm l
  | [] => List.Perm.refl _
  | x :: xs =>
    (pyInsert_perm leb x (pySort leb xs)).trans ((pySort_perm leb xs).cons x)

/-- Membership in an insertion. -/
theorem pyInsert_mem {α : Type} {leb : α → α → Bool} {x a : α} {l : List α} :
    a ∈ pyInsert leb x l ↔ a = x ∨ a ∈ l := by
  rw [(pyInsert_perm leb x l).mem_iff]; simp

/-- Membership in the sorted list. -/
theorem pySort_mem {α : Type} {leb : α → α → Bool} {a : α} {l : List α} :
    a ∈ pySort leb l ↔ a ∈ l := (pySort_perm leb l).mem_iff

/-- Inserting into a sorted list keeps it sorted (totality and transitivity of
the comparison suffice). -/
theorem pyInsert_pairwise {α : Type} {leb : α → α → Bool}
    (htot : ∀ a b, leb a b = true ∨ leb b a = true)
    (htrans : ∀ a b c, leb a b = true → leb b c = true → leb a c = true)
    (x : α) : ∀ {l : List α}, l.Pairwise (fun a b => leb a b = true) →
    (pyInsert leb x l).Pairwise (fun a b => leb a b = true)
  | [], _ => by simp [pyInsert]
  | y :: ys, hl => by
    rcases List.pairwise_cons.mp hl with ⟨hy, hys⟩
    by_cases h : leb x y = true
    · simp only [pyInsert, h, if_true]
      refine List.pairwise_cons.mpr ⟨?_, hl⟩
      intro z hz
      rcases List.mem_cons.mp hz with rfl | hz
      · exact h
      · exact htrans x y z h (hy z hz)
    · simp only [pyInsert, h, if_false, Bool.false_eq_true]
      refine List.pairwise_cons.mpr ⟨?_, pyInsert_pairwise htot htrans x hys⟩
      intro z hz
      rcases pyInsert_mem.mp hz with rfl | hz
      · rcases htot z y with hzy | hyz
        · exact absurd hzy h
        · exact hyz
      · exact hy z hz

/-- The stable sort sorts. -/
theorem pySort_pairwise {α : Type} {leb : α → α → Bool}
    (htot : ∀ a b, leb a b = true ∨ leb b a = true)
    (htrans : ∀ a b c, leb a b = true → leb b c = true → leb a c = true) :
    ∀ l : List α, (pySort leb l).Pairwise (fun a b => leb a b = true)
  | [] => List.Pairwise.nil
  | x :: xs => pyInsert_pairwise htot htrans x (pySort_pairwise htot htrans xs)

/-- Insertion preserves any pairwise relation that holds automatically from a
failed comparison (the stability workhorse). -/
theorem pyInsert_pairwise_P {α : Type} {leb : α → α → Bool}
    {P : α → α → Prop} (hP : ∀ a b, leb a b = false → P b a) (x : α) :
    ∀ {l : List α}, l.Pairwise P → (∀ y ∈ l, P x y) →
    (pyInsert leb x l).Pairwise P
  | [], _, _ => by simp [pyInsert]
  | y :: ys, hl, hx => by
    rcases List.pairwise_cons.mp hl with ⟨hy, hys⟩
    by_cases h : leb x y = true
    · simp only [pyInsert, h, if_true]
      exact List.pairwise_cons.mpr ⟨fun z hz => hx z hz, hl⟩
    · simp only [pyInsert, h, if_false, Bool.false_eq_true]
      refine List.pairwise_cons.mpr
        ⟨?_, pyInsert_pairwise_P hP x hys (fun z hz => hx z (List.mem_cons_of_mem y hz))⟩
      intro z hz
      rcases pyInsert_mem.mp hz with rfl | hz
      · exact hP z y (Bool.not_eq_true _ ▸ eq_false_of_ne_true h)
      · exact hy z hz

/-- The stable sort preserves any pairwise relation that holds automatically
from a failed comparison. -/
theorem pySort_pairwise_P {α : Type} {leb : α → α → Bool}
    {P : α → α → Prop} (hP : ∀ a b, leb a b = false → P b a) :
    ∀ {l : List α}, l.Pairwise P → (pySort leb l).Pairwise P
  | [], _ => List.Pairwise.nil
  | x :: xs, hl => by
    rcases List.pairwise_cons.mp hl with ⟨hx, hxs⟩
    exact pyInsert_pairwise_P hP x (pySort_pairwise_P hP hxs)
      (fun y hy => hx y (pySort_mem.mp hy))

/-- Stability of insertion with respect to one key class: for a comparison
that is a reflexive key comparison, the filter of a key class is unchanged by
inserting (the inserted element never passes an element of its own key
class). -/
theorem pyInsert_filter_key {α κ : Type} [inst : DecidableEq κ] {keyOf : α → κ}
    {kleb : κ → κ → Bool} (hrefl : ∀ k, kleb k k = true) (x : α) (k : κ) :
    ∀ l : List α,
      (pyInsert (fun a b => kleb (keyOf a) (keyOf b)) x l).filter
          (fun a => decide (keyOf a = k)) =
        (x :: l).filter (fun a => decide (keyOf a = k))
  | [] => rfl
  | y :: ys => by
    by_cases hxy : kleb (keyOf x) (keyOf y) = true
    · simp only [pyInsert, hxy, if_true]
    · have hkey : keyOf x ≠ keyOf y := fun he => hxy (he ▸ hrefl (keyOf x))
      simp only [pyInsert, hxy, if_false, Bool.false_eq_true]
      have ih := @pyInsert_filter_key α κ inst keyOf kleb hrefl x k ys
      by_cases hx : keyOf x = k
      · have hy : ¬ keyOf y = k := fun he => hkey (hx.trans he.symm)
        simp only [List.filter_cons, decide_eq_true_eq, if_pos hx, if_neg hy]
        rw [ih]
        simp only [List.filter_cons, decide_eq_true_eq, if_pos hx, if_neg hy]
      · simp only [List.filter_cons, decide_eq_true_eq, if_neg hx]
        rw [ih]
        simp only [List.filter_cons, decide_eq_true_eq, if_neg hx]

/-- Stability of the sort with respect to one key class: sorting does not
change the filter of a key class. -/
theorem pySort_filter_key {α κ : Type} [DecidableEq κ] {keyOf : α → κ}
    {kleb : κ → κ → Bool} (hrefl : ∀ k, kleb k k = true) (k : κ) :
    ∀ l : List α,
      (pySort (fun a b => kleb (keyOf a) (keyOf b)) l).filter
          (fun a => decide (keyOf a = k)) =
        l.filter (fun a => decide (keyOf a = k))
  | [] => rfl
  | x :: xs => by
    rw [pySort, pyInsert_filter_key hrefl x k, List.filter_cons,
      List.filter_cons, pySort_filter_key hrefl k xs]

/-- Two lists that are sorted by a reflexive, antisymmetric key comparison and
have the same filter on every key class are equal. -/
theorem sorted_eq_of_filter_key {α κ : Type} [DecidableEq κ] {keyOf : α → κ}
    {kleb : κ → κ → Bool} (hrefl : ∀ k, kleb k k = true)
    (hanti : ∀ j k, kleb j k = true → kleb k j = true → j = k) :
    ∀ l₁ l₂ : List α,
      l₁.Pairwise (fun a b => kleb (keyOf a) (keyOf b) = true) →
      l₂.Pairwise (fun a b => kleb (keyOf a) (keyOf b) = true) →
      (∀ k, l₁.filter (fun a => decide (keyOf a = k)) =
        l₂.filter (fun a => decide (keyOf a = k))) →
      l₁ = l₂
  | [], [], _, _, _ => rfl
  | [], y :: ys, _, _, hf => by
    have h := hf (keyOf y)
    simp [List.filter_cons] at h
  | x :: xs, [], _, _, hf => by
    have h := hf (keyOf x)
    simp [List.filter_cons] at h
  | x :: xs, y :: ys, h1, h2, hf => by
    rcases List.pairwise_cons.mp h1 with ⟨hx, hxs⟩
    rcases List.pairwise_cons.mp h2 with ⟨hy, hys⟩
    have hkxy : keyOf x = keyOf y := by
      have hx_in : x ∈ y :: ys := by
        have hmem : x ∈ (y :: ys).filter (fun a => decide (keyOf a = keyOf x)) := by
          rw [← hf (keyOf x)]; simp [List.filter_cons]
        exact (List.mem_filter.mp hmem).1
      have hy_in : y ∈ x :: xs := by
        have hmem : y ∈ (x :: xs).filter (fun a => decide (keyOf a = keyOf y)) := by
          rw [hf (keyOf y)]; simp [List.filter_cons]
        exact (List.mem_filter.mp hmem).1
      rcases List.mem_cons.mp hx_in with he | hxys
      · rw [he]
      · rcases List.mem_cons.mp hy_in with he | hyxs
        · rw [he]
        · exact hanti _ _ (hx y hyxs) (hy x hxys)
    have hheads := hf (keyOf x)
    simp only [List.filter_cons, decide_eq_true_eq, if_pos rfl,
      if_pos hkxy.symm] at hheads
    have hxy : x = y := List.head_eq_of_cons_eq hheads
    have htail0 : xs.filter (fun a => decide (keyOf a = keyOf x)) =
        ys.filter (fun a => decide (keyOf a = keyOf x)) :=
      List.tail_eq_of_cons_eq hheads
    refine List.cons_eq_cons.mpr ⟨hxy, ?_⟩
    refine sorted_eq_of_filter_key hrefl hanti xs ys hxs hys ?_
    intro k
    by_cases hk : k = keyOf x
    · exact hk ▸ htail0
    · have h := hf k
      simp only [List.filter_cons, decide_eq_true_eq,
        if_neg (fun he => hk (Eq.symm he)),
        if_neg (fun he => hk (Eq.symm (hkxy.trans he)))] at h
      exact h

/-- Every issue returned by a line rule carries the dispatching code, the
analyzed line number and the analyzer path. -/
theorem single_line_analyzer_spec {path : String} {t : IssueType}
    {line_no : Nat} {line : Line} {i : CodeIssue}
    (h : single_line_analyzer path t line_no line = some i) :
    i.path = path ∧ i.line = line_no ∧ i.type = t := by
  cases t <;>
    simp only [single_line_analyzer, long_line, indentation, semicolon,
      missing_spaces, todo] at h <;>
    first
      | (split at h <;>
          first
            | (cases h; exact ⟨rfl, rfl, rfl⟩)
            | simp_all)
      | simp_all

/-- Every issue collected by the blank-line loop carries the path, the S006
code, and the line number of one of the remaining enumerated lines. -/
theorem blank_lines_loop_spec (path : String) (i : CodeIssue) :
    ∀ (c : Nat) (pairs : List (Nat × Line)), i ∈ blank_lines_loop path c pairs →
      i.path = path ∧ i.type = .S006 ∧ ∃ nl ∈ pairs, i.line = nl.1
  | _, [], h => by simp [blank_lines_loop] at h
  | c, (ln, l) :: rest, h => by
    simp only [blank_lines_loop] at h
    by_cases hs : pyStrip l = []
    · rw [if_pos hs] at h
      obtain ⟨h1, h2, nl, hnl, h3⟩ := blank_lines_loop_spec path i (c + 1) rest h
      exact ⟨h1, h2, nl, List.mem_cons_of_mem _ hnl, h3⟩
    · rw [if_neg hs] at h
      rcases List.mem_append.mp h with hl | hr
      · by_cases hc : c > 2
        · rw [if_pos hc] at hl
          simp only [List.mem_singleton] at hl
          subst hl
          exact ⟨rfl, rfl, (ln, l), List.mem_cons_self _ _, rfl⟩
        · rw [if_neg hc] at hl; simp at hl
      · obtain ⟨h1, h2, nl, hnl, h3⟩ := blank_lines_loop_spec path i 0 rest hr
        exact ⟨h1, h2, nl, List.mem_cons_of_mem _ hnl, h3⟩

/-- Every issue returned by a whole-file rule carries the dispatching code,
the path, and the line number of one of the enumerated lines. -/
theorem bulk_analyzer_spec {path : String} {t : IssueType} {lines : List Line}
    {i : CodeIssue} (h : i ∈ bulk_analyzer path t lines) :
    i.path = path ∧ i.type = t ∧ ∃ nl ∈ List.enumFrom 1 lines, i.line = nl.1 := by
  cases t <;> simp only [bulk_analyzer] at h <;>
    first
      | exact blank_lines_loop_spec path i 0 _ h
      | simp at h

/-- Every issue returned by a node rule carries the dispatching code, the
path, and the defining line of the node. -/
theorem node_analyzer_spec {path : String} {t : IssueType} {n : Node}
    {parent : Option Node} {i : CodeIssue}
    (h : i ∈ node_analyzer path t (n, parent)) :
    i.path = path ∧ i.type = t ∧ i.line = n.lineno := by
  cases n <;> cases t <;>
    simp only [node_analyzer, too_many_spaces, camel_case_check, snake_case_fct,
      snake_case_args, snake_case_var, mutable_default,
      List.mem_map, List.mem_filter, List.mem_filterMap, Option.mem_toList,
      Option.mem_def, List.not_mem_nil] at h <;>
    first
      | (split at h <;>
          first
            | (cases h; exact ⟨rfl, rfl, rfl⟩)
            | (simp only [List.mem_map, List.mem_filter, List.mem_filterMap] at h;
               rcases h with ⟨a, ha, he⟩; cases he; exact ⟨rfl, rfl, rfl⟩)
            | simp_all)
      | (rcases h with ⟨a, ha, he⟩; cases he; exact ⟨rfl, rfl, rfl⟩)
      | (cases h; exact ⟨rfl, rfl, rfl⟩)
      | simp_all
      | exact h.elim

/-- The enum lookup inverts the `name` attribute. -/
theorem issue_type_from_name_name :
    ∀ t : IssueType, issue_type_from_name t.name = some t := by
  intro t; cases t <;> rfl

/-- The lookup determines the name. -/
theorem name_of_issue_type_from_name {s : String} {t : IssueType}
    (h : issue_type_from_name s = some t) : t.name = s := by
  have hp := List.find?_some h
  simpa using hp

/-- A code-pure issue list has an empty filter on a key class of a different
code. -/
theorem filter_key_nil_of_code {gl : List CodeIssue} {t : IssueType}
    (hall : ∀ i ∈ gl, i.type = t) {k : Nat × String}
    (hne : issue_type_from_name k.2 ≠ some t) :
    gl.filter (fun i => decide (issue_key i = k)) = [] := by
  rw [List.filter_eq_nil_iff]
  intro i hi hk
  have htype := hall i hi
  have hkey : issue_key i = k := by simpa using hk
  have hname : k.2 = t.name := by
    have := congrArg Prod.snd hkey
    simpa [issue_key, htype] using this.symm
  exact hne (hname ▸ issue_type_from_name_name t)

/-- The dispatch loop of a code-pure family has an empty filter on a key
class whose code is not enumerated. -/
theorem bind_filter_nil_of_not_mem {g : IssueType → List CodeIssue}
    (hg : ∀ t i, i ∈ g t → i.type = t) {t0 : IssueType} {k : Nat × String}
    (hk : issue_type_from_name k.2 = some t0) {o : List IssueType}
    (hnot : t0 ∉ o) :
    (o.bind g).filter (fun i => decide (issue_key i = k)) = [] := by
  rw [List.filter_eq_nil_iff]
  intro i hi hki
  rcases List.mem_bind.mp hi with ⟨t, ht, hit⟩
  have htype := hg t i hit
  have hkey : issue_key i = k := by simpa using hki
  have hname : k.2 = t.name := by
    have := congrArg Prod.snd hkey
    simpa [issue_key, htype] using this.symm
  have : t = t0 := by
    have h2 := hname ▸ issue_type_from_name_name t
    rw [hk] at h2
    exact (Option.some.inj h2).symm
  exact hnot (this ▸ ht)

/-- The filter of a key class over a duplicate-free dispatch loop of a
code-pure family depends only on the membership of the class code. -/
theorem dispatch_filter {g : IssueType → List CodeIssue}
    (hg : ∀ t i, i ∈ g t → i.type = t) (k : Nat × String) :
    ∀ {o : List IssueType}, o.Nodup →
      (o.bind g).filter (fun i => decide (issue_key i = k)) =
        (match issue_type_from_name k.2 with
         | some t =>
           if t ∈ o then (g t).filter (fun i => decide (issue_key i = k)) else []
         | none => [])
  | [], _ => by cases hfn : issue_type_from_name k.2 <;> simp
  | a :: rest, hnd => by
    have hnd' := List.nodup_cons.mp hnd
    have hsplit : ((a :: rest).bind g).filter (fun i => decide (issue_key i = k)) =
        (g a).filter (fun i => decide (issue_key i = k)) ++
          (rest.bind g).filter (fun i => decide (issue_key i = k)) := by
      simp [List.bind, List.filter_append]
    rw [hsplit]
    cases hfn : issue_type_from_name k.2 with
    | none =>
      rw [filter_key_nil_of_code (fun i hi => hg a i hi) (by simp [hfn]),
        List.nil_append, dispatch_filter hg k hnd'.2, hfn]
    | some t =>
      by_cases hat : a = t
      · subst hat
        rw [bind_filter_nil_of_not_mem hg hfn hnd'.1]
        simp
      · have hne : issue_type_from_name k.2 ≠ some a := by
          rw [hfn]; intro he; exact hat (Option.some.inj he).symm
        rw [filter_key_nil_of_code (fun i hi => hg a i hi) hne,
          List.nil_append, dispatch_filter hg k hnd'.2, hfn]
        have hiff : t ∈ rest ↔ t ∈ a :: rest := by
          constructor
          · exact List.mem_cons_of_mem a
          · intro hmem
            rcases List.mem_cons.mp hmem with he | he
            · exact absurd he.symm hat
            · exact he
        exact if_congr hiff rfl rfl

/-- Two duplicate-free enumerations with the same membership give the same
key-class filters of the dispatch loop. -/
theorem dispatch_filter_eq {g : IssueType → List CodeIssue}
    (hg : ∀ t i, i ∈ g t → i.type = t) (k : Nat × String)
    {o₁ o₂ : List IssueType} (h₁ : o₁.Nodup) (h₂ : o₂.Nodup)
    (hm : ∀ t, t ∈ o₁ ↔ t ∈ o₂) :
    (o₁.bind g).filter (fun i => decide (issue_key i = k)) =
      (o₂.bind g).filter (fun i => decide (issue_key i = k)) := by
  rw [dispatch_filter hg k h₁, dispatch_filter hg k h₂]
  cases issue_type_from_name k.2 with
  | none => rfl
  | some t => exact if_congr (hm t) rfl rfl

/-- A take of everything: when the separator does not occur, `takeWhile` keeps
the whole line. -/
theorem takeWhile_ne_of_not_mem {sep : Char} {l : Line} (h : sep ∉ l) :
    l.takeWhile (· ≠ sep) = l :=
  List.takeWhile_eq_self_iff.mpr (fun x hx => by
    simp only [decide_eq_true_eq]
    exact fun he => h (he ▸ hx))

/-- When the separator does not occur, `dropWhile` drops the whole line. -/
theorem dropWhile_ne_of_not_mem {sep : Char} {l : Line} (h : sep ∉ l) :
    l.dropWhile (· ≠ sep) = [] :=
  List.dropWhile_eq_nil_iff.mpr (fun x hx => by
    simp only [decide_eq_true_eq]
    exact fun he => h (he ▸ hx))

/-- No split result is empty. -/
theorem pySplitMax_ne_nil (sep : Char) : ∀ (m : Nat) (l : Line), pySplitMax sep m l ≠ []
  | 0, _ => by simp [pySplitMax]
  | _ + 1, l => by rw [pySplitMax]; split <;> simp

/-- Closed form of the comment split: the code part is the text before the
first `#`, and the comment part is the text after the first `#` and before a
second `#` when one occurs (all the remaining text otherwise). -/
theorem split_at_comment_eq (l : Line) :
    split_at_comment l =
      (l.takeWhile (· ≠ '#'),
       ((l.dropWhile (· ≠ '#')).tail).takeWhile (· ≠ '#')) := by
  by_cases hmem : '#' ∈ l
  · simp only [split_at_comment, if_pos hmem]
    rw [show (2 : Nat) = 1 + 1 from rfl, pySplitMax, if_pos hmem,
      show (1 : Nat) = 0 + 1 from rfl, pySplitMax]
    split
    · rfl
    · rename_i hnot
      refine Prod.ext rfl ?_
      exact (takeWhile_ne_of_not_mem hnot).symm
  · simp only [split_at_comment, if_neg hmem]
    refine Prod.ext ?_ ?_
    · exact (takeWhile_ne_of_not_mem hmem).symm
    · show ([] : Line) = _
      rw [dropWhile_ne_of_not_mem hmem]
      rfl

/-- The full split has more than one part exactly when the separator
occurs. -/
theorem pySplit_length_gt_one_iff (sep : Char) (l : Line) :
    (pySplit sep l).length > 1 ↔ sep ∈ l := by
  cases l with
  | nil => simp [pySplit, pySplitMax]
  | cons c cs =>
    show (pySplitMax sep (cs.length + 1) (c :: cs)).length > 1 ↔ _
    rw [pySplitMax]
    by_cases hmem : sep ∈ c :: cs
    · rw [if_pos hmem]
      have hpos := List.length_pos.mpr (pySplitMax_ne_nil sep cs.length
        (((c :: cs).dropWhile (· ≠ sep)).tail))
      simp only [List.length_cons, gt_iff_lt]
      exact ⟨fun _ => hmem, fun _ => by omega⟩
    · rw [if_neg hmem]
      simp [hmem]

/-- The first part of the full split is the text before the first
separator. -/
theorem pySplit_head (sep : Char) (l : Line) :
    (pySplit sep l).getD 0 [] = l.takeWhile (· ≠ sep) := by
  cases l with
  | nil => simp [pySplit, pySplitMax, List.takeWhile]
  | cons c cs =>
    show (pySplitMax sep (cs.length + 1) (c :: cs)).getD 0 [] = _
    rw [pySplitMax]
    by_cases hmem : sep ∈ c :: cs
    · rw [if_pos hmem]; rfl
    · rw [if_neg hmem]
      exact (takeWhile_ne_of_not_mem hmem).symm

/-- The inline-comment test, characterized on the surface of the line: a `#`
occurs and the text before the first `#` does not strip to the empty
string. -/
theorem has_inline_comment_iff (l : Line) :
    has_inline_comment l = true ↔
      '#' ∈ l ∧ pyStrip (l.takeWhile (· ≠ '#')) ≠ [] := by
  simp only [has_inline_comment, Bool.and_eq_true, decide_eq_true_eq,
    Bool.not_eq_true', List.isEmpty_eq_false, pySplit_head]
  rw [← pySplit_length_gt_one_iff '#' l]

/-- Filtering distributes over the issue streams of a loop. -/
theorem filter_bind {α : Type} (l : List α) (f : α → List CodeIssue)
    (p : CodeIssue → Bool) :
    (l.bind f).filter p = l.bind (fun a => (f a).filter p) := by
  induction l with
  | nil => rfl
  | cons x xs ih => simp [List.bind, List.filter_append, ih]

/-- Loops over the same list with pointwise equal bodies produce the same
stream. -/
theorem bind_congr_fn {α β : Type} {l : List α} {f g : α → List β}
    (h : ∀ a ∈ l, f a = g a) : l.bind f = l.bind g := by
  induction l with
  | nil => rfl
  | cons x xs ih =>
    simp only [List.bind, List.flatMap_cons]
    rw [h x (List.mem_cons_self x xs)]
    exact congrArg (g x ++ ·) (ih (fun a ha => h a (List.mem_cons_of_mem x ha)))

/-- The key set of `ast_analyzers` for the kind of a node (empty for kinds
without an entry). -/
def node_keys : Node → List IssueType
  | .classDef _ _ _ _ => class_keys
  | .functionDef _ _ _ _ _ _ => func_keys
  | .assign _ _ _ => assign_keys
  | _ => []

/-- For valid orders, the per-node enumeration is a duplicate-free enumeration
of the intersection with the key set of the node kind. -/
theorem order_for_valid {req : IssueType → Bool} {o : Orders}
    (h : ValidOrders req o) (n : Node) :
    (order_for n o).Nodup ∧
      ∀ t, t ∈ order_for n o ↔ (req t = true ∧ t ∈ node_keys n) := by
  obtain ⟨_, _, hc, hf, ha⟩ := h
  cases n with
  | classDef name lineno srcSeg body => exact ⟨hc.1, fun t => hc.2 t⟩
  | functionDef name lineno srcSeg args defaults body => exact ⟨hf.1, fun t => hf.2 t⟩
  | assign lineno targets value => exact ⟨ha.1, fun t => ha.2 t⟩
  | module body => exact ⟨List.nodup_nil, fun t => by simp [order_for, node_keys]⟩
  | otherStmt lineno body => exact ⟨List.nodup_nil, fun t => by simp [order_for, node_keys]⟩

/-- The key-class filters of a full run (line pass, bulk pass, ast pass on a
parsed tree) are the same for any two valid enumerations of the requested
checks. -/
theorem run_filter_eq {path : String} {lines : List Line}
    {req : IssueType → Bool} {o₁ o₂ : Orders}
    (h₁ : ValidOrders req o₁) (h₂ : ValidOrders req o₂) (tree : Node)
    (k : Nat × String) :
    (line_by_line_analysis path lines o₁ ++ bulk_analysis path lines o₁ ++
        (ast_walk tree).bind (check_node path o₁)).filter
        (fun i => decide (issue_key i = k)) =
      (line_by_line_analysis path lines o₂ ++ bulk_analysis path lines o₂ ++
        (ast_walk tree).bind (check_node path o₂)).filter
        (fun i => decide (issue_key i = k)) := by
  rw [List.filter_append, List.filter_append, List.filter_append,
    List.filter_append]
  have hline : (line_by_line_analysis path lines o₁).filter
      (fun i => decide (issue_key i = k)) =
      (line_by_line_analysis path lines o₂).filter
      (fun i => decide (issue_key i = k)) := by
    unfold line_by_line_analysis
    rw [filter_bind, filter_bind]
    refine bind_congr_fn (fun nl _ => ?_)
    refine dispatch_filter_eq (fun t i hi => ?_) k h₁.1.1 h₂.1.1
      (fun t => (h₁.1.2 t).trans (h₂.1.2 t).symm)
    rcases Option.mem_toList.mp hi with hsome
    exact (single_line_analyzer_spec hsome).2.2
  have hbulk : (bulk_analysis path lines o₁).filter
      (fun i => decide (issue_key i = k)) =
      (bulk_analysis path lines o₂).filter
      (fun i => decide (issue_key i = k)) := by
    unfold bulk_analysis
    refine dispatch_filter_eq (fun t i hi => ?_) k h₁.2.1.1 h₂.2.1.1
      (fun t => (h₁.2.1.2 t).trans (h₂.2.1.2 t).symm)
    exact (bulk_analyzer_spec hi).2.1
  have hast : ((ast_walk tree).bind (check_node path o₁)).filter
      (fun i => decide (issue_key i = k)) =
      ((ast_walk tree).bind (check_node path o₂)).filter
      (fun i => decide (issue_key i = k)) := by
    rw [filter_bind, filter_bind]
    refine bind_congr_fn (fun np _ => ?_)
    unfold check_node
    obtain ⟨hn₁, hm₁⟩ := order_for_valid h₁ np.1
    obtain ⟨hn₂, hm₂⟩ := order_for_valid h₂ np.1
    refine dispatch_filter_eq (fun t i hi => ?_) k hn₁ hn₂
      (fun t => (hm₁ t).trans (hm₂ t).symm)
    obtain ⟨n, parent⟩ := np
    exact (node_analyzer_spec hi).2.1
  rw [hline, hbulk, hast]

/-- The `get_issues` result is sorted by the `(line, code)` key. -/
theorem get_issues_sorted (found_issues : List CodeIssue) :
    (get_issues found_issues).Pairwise (fun a b => line_code_le a b = true) :=
  pySort_pairwise (fun a b => key_le_total (issue_key a) (issue_key b))
    (fun _ _ _ hab hbc => key_le_trans hab hbc) found_issues

/-- Sorting in `get_issues` keeps each `(line, code)` key class untouched
(stability). -/
theorem get_issues_filter_key (found_issues : List CodeIssue)
    (k : Nat × String) :
    (get_issues found_issues).filter (fun i => decide (issue_key i = k)) =
      found_issues.filter (fun i => decide (issue_key i = k)) :=
  pySort_filter_key key_le_refl k found_issues

/-- Determinism of a single-file run: two valid enumerations of the same
requested set produce identical results. -/
theorem analyze_single_deterministic (f : SourceFile) {req : IssueType → Bool}
    {o₁ o₂ : Orders} (h₁ : ValidOrders req o₁) (h₂ : ValidOrders req o₂) :
    analyze_single f o₁ = analyze_single f o₂ := by
  cases hp : f.parsed with
  | error e => simp [analyze_single, analyze_run, ast_node_analysis, hp]
  | ok tree =>
    simp only [analyze_single, analyze_run, ast_node_analysis, hp]
    congr 1
    refine sorted_eq_of_filter_key key_le_refl
      (fun _ _ hjk hkj => key_le_antisymm hjk hkj) _ _
      (get_issues_sorted _) (get_issues_sorted _) (fun k => ?_)
    rw [get_issues_filter_key, get_issues_filter_key]
    exact run_filter_eq h₁ h₂ tree k

/-- The function `pyRstrip` gives the empty string exactly on all-whitespace input. -/
theorem pyRstrip_eq_nil_iff (l : Line) :
    pyRstrip l = [] ↔ ∀ c ∈ l, isPySpace c = true := by
  simp only [pyRstrip, List.reverse_eq_nil_iff, List.dropWhile_eq_nil_iff,
    List.mem_reverse]

/-- The function `pyStrip` gives the empty string exactly on all-whitespace input. -/
theorem pyStrip_eq_nil_iff (l : Line) :
    pyStrip l = [] ↔ ∀ c ∈ l, isPySpace c = true := by
  rw [pyStrip, pyRstrip_eq_nil_iff]
  constructor
  · intro h c hc
    have hsplit := List.takeWhile_append_dropWhile (p := isPySpace) (l := l)
    rw [← hsplit] at hc
    rcases List.mem_append.mp hc with ht | hd
    · exact List.mem_takeWhile_imp ht
    · exact h c hd
  · intro h c hc
    exact h c (List.dropWhile_sublist isPySpace |>.subset hc)

/-- The count `len(code) - len(code.rstrip())` is the length of the trailing
whitespace run. -/
theorem trailing_ws_count (l : Line) :
    l.length - (pyRstrip l).length = (l.reverse.takeWhile isPySpace).length := by
  have hsplit := List.takeWhile_append_dropWhile (p := isPySpace) (l := l.reverse)
  have hlen : l.reverse.length =
      (l.reverse.takeWhile isPySpace).length +
        (l.reverse.dropWhile isPySpace).length := by
    conv_lhs => rw [← hsplit]
    rw [List.length_append]
  simp only [pyRstrip, List.length_reverse] at *
  omega

/-- Every issue of a full run carries the analyzer path and a line number that
is either an enumerated physical line number or the defining line of a walked
node. -/
theorem mem_run_cases {path : String} {lines : List Line} {o : Orders}
    {tree : Node} {i : CodeIssue}
    (h : i ∈ line_by_line_analysis path lines o ++ bulk_analysis path lines o ++
      (ast_walk tree).bind (check_node path o)) :
    i.path = path ∧
      ((∃ nl ∈ List.enumFrom 1 lines, i.line = nl.1) ∨
       (∃ np ∈ ast_walk tree, i.line = np.1.lineno)) := by
  rcases List.mem_append.mp h with h12 | h3
  · rcases List.mem_append.mp h12 with h1 | h2
    · unfold line_by_line_analysis at h1
      rcases List.mem_bind.mp h1 with ⟨nl, hnl, hi⟩
      rcases List.mem_bind.mp hi with ⟨t, _, hit⟩
      have hsome := Option.mem_def.mp (Option.mem_toList.mp hit)
      obtain ⟨hp, hl, _⟩ := single_line_analyzer_spec hsome
      exact ⟨hp, .inl ⟨nl, hnl, hl⟩⟩
    · unfold bulk_analysis at h2
      rcases List.mem_bind.mp h2 with ⟨t, _, hit⟩
      obtain ⟨hp, _, nl, hnl, hl⟩ := bulk_analyzer_spec hit
      exact ⟨hp, .inl ⟨nl, hnl, hl⟩⟩
  · rcases List.mem_bind.mp h3 with ⟨np, hnp, hi⟩
    unfold check_node at hi
    rcases List.mem_bind.mp hi with ⟨t, _, hit⟩
    obtain ⟨n, parent⟩ := np
    obtain ⟨hp, _, hl⟩ := node_analyzer_spec hit
    exact ⟨hp, .inr ⟨(n, parent), hnp, hl⟩⟩

/-- Every issue code is registered. -/
theorem mem_registered_codes (t : IssueType) : t ∈ registered_codes := by
  cases t <;> simp [registered_codes]

/-- A successful single-file run is the sorted full run on the parsed tree. -/
theorem analyze_single_ok {f : SourceFile} {o : Orders} {out : List CodeIssue}
    (h : analyze_single f o = .ok out) :
    ∃ tree, f.parsed = .ok tree ∧
      out = get_issues (line_by_line_analysis f.path f.lines o ++
        bulk_analysis f.path f.lines o ++
        (ast_walk tree).bind (check_node f.path o)) := by
  cases hp : f.parsed with
  | error e => simp [analyze_single, analyze_run, ast_node_analysis, hp] at h
  | ok tree =>
    refine ⟨tree, rfl, ?_⟩
    simp only [analyze_single, analyze_run, ast_node_analysis, hp,
      Except.ok.injEq] at h
    exact h.symm

/-- Every reported issue of a single-file run carries the path of the analyzed
file. -/
theorem analyze_single_paths {f : SourceFile} {o : Orders}
    {out : List CodeIssue} (h : analyze_single f o = .ok out) :
    ∀ i ∈ out, i.path = f.path := by
  obtain ⟨tree, _, hout⟩ := analyze_single_ok h
  intro i hi
  rw [hout] at hi
  exact (mem_run_cases (pySort_mem.mp hi)).1

/-- The combined pre-sort list of a successful directory scan: every issue
carries the path of one scanned file, and when scanned paths are distinct,
issues with equal paths already appear in `(line, code)` order. -/
theorem collect_multi_spec :
    ∀ {files : List (SourceFile × Orders)} {all : List CodeIssue},
      collect_multi files = .ok all →
      (files.map (fun fo => fo.1.path)).Nodup →
      (∀ i ∈ all, ∃ fo ∈ files, i.path = fo.1.path) ∧
        all.Pairwise (fun a b => a.path = b.path → line_code_le a b = true)
  | [], all, h, _ => by
    simp only [collect_multi, Except.ok.injEq] at h
    subst h
    exact ⟨by simp, List.Pairwise.nil⟩
  | (f, o) :: rest, all, h, hnd => by
    simp only [collect_multi] at h
    cases hf : analyze_single f o with
    | error e => rw [hf] at h; simp at h
    | ok issues =>
      rw [hf] at h
      cases hr : collect_multi rest with
      | error e => rw [hr] at h; simp [Except.map] at h
      | ok restAll =>
        rw [hr] at h
        simp only [Except.map, Except.ok.injEq] at h
        subst h
        have hnd0 : f.path ∉ rest.map (fun fo => fo.1.path) ∧
            (rest.map (fun fo => fo.1.path)).Nodup := by
          rw [List.map_cons] at hnd
          exact List.nodup_cons.mp hnd
        obtain ⟨hrest_paths, hrest_pw⟩ := collect_multi_spec hr hnd0.2
        constructor
        · intro i hi
          rcases List.mem_append.mp hi with hl | hr2
          · exact ⟨(f, o), List.mem_cons_self _ _, analyze_single_paths hf i hl⟩
          · obtain ⟨fo, hfo, hp⟩ := hrest_paths i hr2
            exact ⟨fo, List.mem_cons_of_mem _ hfo, hp⟩
        · rw [List.pairwise_append]
          refine ⟨?_, hrest_pw, ?_⟩
          · have hsorted : issues.Pairwise (fun a b => line_code_le a b = true) := by
              obtain ⟨tree, _, hout⟩ := analyze_single_ok hf
              rw [hout]
              exact get_issues_sorted _
            refine List.Pairwise.imp ?_ hsorted
            intro a b h _
            exact h
          · intro a ha b hb hab
            exfalso
            obtain ⟨fo, hfo, hbp⟩ := hrest_paths b hb
            have hap := analyze_single_paths hf a ha
            apply hnd0.1
            have hfp : f.path = fo.1.path := by rw [← hap, hab, hbp]
            rw [hfp]
            exact List.mem_map.mpr ⟨fo, hfo, rfl⟩

/-- One loop step (`foldl` unfolding). -/
theorem filter_loop_cons (st : List IssueType × List String) (tok : String)
    (rest : List String) :
    filter_loop st (tok :: rest) = filter_loop (filter_step st tok) rest := rfl

/-- The loop over a concatenation is the composition of the loops. -/
theorem filter_loop_append (st : List IssueType × List String)
    (xs ys : List String) :
    filter_loop st (xs ++ ys) = filter_loop (filter_loop st xs) ys :=
  List.foldl_append filter_step st xs ys

/-- One step only appends to the printed messages; the new selected set and
the appended messages do not depend on the messages printed so far. -/
theorem filter_step_warnings (st : List IssueType) (ws : List String)
    (tok : String) :
    filter_step (st, ws) tok =
      ((filter_step (st, []) tok).1, ws ++ (filter_step (st, []) tok).2) := by
  simp only [filter_step]
  cases issue_type_from_name (pyUpperStr (pyStripStr tok)) with
  | none => rfl
  | some t => by_cases ht : t ∈ st <;> simp [ht]

/-- The loop only appends to the printed messages; the final selected set and
the appended messages do not depend on the messages printed so far. -/
theorem filter_loop_warnings :
    ∀ (toks : List String) (st : List IssueType) (ws : List String),
      filter_loop (st, ws) toks =
        ((filter_loop (st, []) toks).1, ws ++ (filter_loop (st, []) toks).2)
  | [], st, ws => by simp [filter_loop]
  | tok :: rest, st, ws => by
    rw [filter_loop_cons, filter_loop_cons, filter_step_warnings st ws tok,
      filter_step_warnings st [] tok]
    simp only [List.nil_append]
    rw [filter_loop_warnings rest (filter_step (st, []) tok).1
        (ws ++ (filter_step (st, []) tok).2),
      filter_loop_warnings rest (filter_step (st, []) tok).1
        (filter_step (st, []) tok).2]
    simp [List.append_assoc]

/-- An unknown token leaves the selected set untouched and prints exactly the
invalid-argument warning. -/
theorem filter_step_invalid {tok : String}
    (h : issue_type_from_name (pyUpperStr (pyStripStr tok)) = none)
    (st : List IssueType) (ws : List String) :
    filter_step (st, ws) tok = (st, ws ++ [invalid_msg tok]) := by
  simp only [filter_step]
  rw [h]

/-- One enumeration of each intersected key set, in registration order (a
concrete set-iteration order used in closed runs). -/
def std_orders : Orders :=
  { lineOrder := [.S001, .S002, .S003, .S004, .S005]
    bulkOrder := [.S006]
    classOrder := [.S007, .S008]
    funcOrder := [.S007, .S009, .S010, .S012]
    assignOrder := [.S011] }

/-- A second enumeration of the same intersections, in a different order. -/
def rev_orders : Orders :=
  { lineOrder := [.S005, .S004, .S003, .S002, .S001]
    bulkOrder := [.S006]
    classOrder := [.S008, .S007]
    funcOrder := [.S012, .S010, .S009, .S007]
    assignOrder := [.S011] }

/-- A well-formed sibling file whose only issue is an inline-comment spacing
violation. -/
def c1_file_a : SourceFile :=
  { path := "a.py"
    lines := ["x = 1 # c".data]
    parsed := .ok (.module [.assign 1 [.nameT "x"] .constLit]) }

/-- A file whose text does not parse: `ast.parse` raises a `SyntaxError`.
Its single line still triggers the S004 and S005 line rules. -/
def c1_file_bad : SourceFile :=
  { path := "bad.py"
    lines := ["x = ( # todo: fix this".data]
    parsed := .error "invalid syntax (bad.py, line 1)" }

/-- A second well-formed sibling file whose only issue is a trailing
semicolon. -/
def c1_file_c : SourceFile :=
  { path := "c.py"
    lines := ["y = 2;".data]
    parsed := .ok (.module [.assign 1 [.nameT "y"] .constLit]) }

/-- C1: the claim fails on the code.  `ast_node_analysis` calls `ast.parse`
without any handler, so a parse failure raises out of `analyze`: the
directory scan errors out as a whole instead of reporting a diagnostic issue,
the issues that the line rules did find for the failing file are never
reported, and the issues of the sibling files are lost with it. -/
theorem C1_parse_failure_crashes_scan :
    analyze_multi [(c1_file_a, std_orders), (c1_file_bad, std_orders),
        (c1_file_c, std_orders)] =
      .error "invalid syntax (bad.py, line 1)" ∧
    analyze_single c1_file_bad std_orders =
      .error "invalid syntax (bad.py, line 1)" ∧
    line_by_line_analysis c1_file_bad.path c1_file_bad.lines std_orders =
      [⟨"bad.py", 1, .S004, none⟩, ⟨"bad.py", 1, .S005, none⟩] ∧
    analyze_single c1_file_a std_orders = .ok [⟨"a.py", 1, .S004, none⟩] ∧
    analyze_single c1_file_c std_orders = .ok [⟨"c.py", 1, .S003, none⟩] :=
  ⟨rfl, rfl, rfl, rfl, rfl⟩

/-- The comment part as the claim states it, modelled from the spec for
comparison: ALL the text after the first comment marker (empty when there is
none). -/
def comment_part_claim (l : Line) : Line := (l.dropWhile (· ≠ '#')).tail

/-- A line with a second comment marker inside the comment. -/
def c2_line : Line := "x = 1 # nothing # todo later".data

/-- C2 counterexample: on a line with two markers the comment part returned by
`split_at_comment` is not all the text after the first marker (it stops at the
second one), and the S005 rule misses a TODO that occurs after the second
marker, although the claim says it is reported. -/
theorem C2_comment_split_counterexample :
    (split_at_comment c2_line).2 = " nothing ".data ∧
    comment_part_claim c2_line = " nothing # todo later".data ∧
    (split_at_comment c2_line).2 ≠ comment_part_claim c2_line ∧
    pySubstr "TODO".data (pyUpper (comment_part_claim c2_line)) = true ∧
    todo "f.py" 1 c2_line = none :=
  ⟨by decide, by decide, by decide, by decide, by decide⟩

/-- C2 (amended): `split_at_comment` splits at the first `#`; the code part is
the text before it, and the comment part is the text after the first marker
UP TO a second marker when one occurs (all the remaining text otherwise, and
empty when there is no marker); the S005 rule reports exactly when `todo`
occurs case-insensitively inside that comment part, never matching text
before the first marker. -/
theorem C2_comment_split_amended (path : String) (line_no : Nat) (l : Line) :
    split_at_comment l =
      (l.takeWhile (· ≠ '#'), (comment_part_claim l).takeWhile (· ≠ '#')) ∧
    (todo path line_no l = some ⟨path, line_no, .S005, none⟩ ↔
      pySubstr "TODO".data
        (pyUpper ((comment_part_claim l).takeWhile (· ≠ '#'))) = true) ∧
    (todo path line_no l = none ↔
      pySubstr "TODO".data
        (pyUpper ((comment_part_claim l).takeWhile (· ≠ '#'))) = false) := by
  have h2 : (split_at_comment l).2 = (comment_part_claim l).takeWhile (· ≠ '#') :=
    congrArg Prod.snd (split_at_comment_eq l)
  refine ⟨split_at_comment_eq l, ?_, ?_⟩
  · unfold todo
    rw [h2]
    cases hc : pySubstr "TODO".data
        (pyUpper ((comment_part_claim l).takeWhile (· ≠ '#'))) <;>
      simp [hc]
  · unfold todo
    rw [h2]
    cases hc : pySubstr "TODO".data
        (pyUpper ((comment_part_claim l).takeWhile (· ≠ '#'))) <;>
      simp [hc]

/-- The set-iteration orders of a run requesting only the S011 check. -/
def c3_orders : Orders :=
  { lineOrder := [], bulkOrder := [], classOrder := [], funcOrder := []
    assignOrder := [.S011] }

/-- A module-level assignment of a list literal to a non-snake_case name. -/
def c3_module_file : SourceFile :=
  { path := "c3.py"
    lines := ["Xyz = [1, 2]".data]
    parsed := .ok (.module [.assign 1 [.nameT "Xyz"] .listLit]) }

/-- The same assignment inside a function body. -/
def c3_fn_file : SourceFile :=
  { path := "c3f.py"
    lines := ["def f():".data, "    Xyz = [1, 2]".data]
    parsed := .ok (.module [.functionDef "f" 1 "def f():" [] []
      [.assign 2 [.nameT "Xyz"] .listLit]]) }

/-- C3: the claim fails on the code.  A module-level assignment of a list
literal to the non-snake_case name `Xyz` yields no S011 issue, because
`node.value in self.mutable_types` compares the value node object against the
ast class objects and is always false — even though the name violates
snake_case, the value is a mutable literal by the classification of the analyzer helper
`is_mutable_type`, and the same assignment inside a function
body is flagged. -/
theorem C3_module_mutable_assignment_ignored :
    analyze_single c3_module_file c3_orders = .ok [] ∧
    snake_violation_match "Xyz" = true ∧
    is_mutable_type PyExpr.listLit = true ∧
    value_in_mutable_types PyExpr.listLit = false ∧
    analyze_single c3_fn_file c3_orders =
      .ok [⟨"c3f.py", 2, .S011, some "Xyz"⟩] :=
  ⟨rfl, by decide, by decide, by decide, rfl⟩

/-- C4: when the scanned paths are distinct (as they are for the files of a
directory walk), the combined list of a successful `analyze_multi` run is
ordered by `(path, line, code)`: the path comparison is primary regardless of
line numbers, and issues with the same path are ordered by line then code. -/
theorem C4_multi_file_order (files : List (SourceFile × Orders))
    (out : List CodeIssue)
    (hnd : (files.map (fun fo => fo.1.path)).Nodup)
    (hout : analyze_multi files = .ok out) :
    out.Pairwise (fun a b =>
      pyStrLe a.path b.path = true ∧
        (a.path = b.path → line_code_le a b = true)) := by
  cases hc : collect_multi files with
  | error e => rw [analyze_multi, hc] at hout; simp [Except.map] at hout
  | ok all =>
    rw [analyze_multi, hc] at hout
    simp only [Except.map, Except.ok.injEq] at hout
    subst hout
    obtain ⟨_, hpw⟩ := collect_multi_spec hc hnd
    have h1 : (pySort path_le all).Pairwise (fun a b => path_le a b = true) :=
      @pySort_pairwise CodeIssue path_le
        (fun a b => pyStrLe_total a.path b.path)
        (fun a b c hab hbc => @pyStrLe_trans a.path b.path c.path hab hbc) all
    have h2 : (pySort path_le all).Pairwise
        (fun a b => a.path = b.path → line_code_le a b = true) := by
      refine pySort_pairwise_P ?_ hpw
      intro a b hab heq
      exfalso
      simp only [path_le] at hab
      rw [heq, pyStrLe_refl] at hab
      exact Bool.true_eq_false.mp hab
    exact List.Pairwise.and h1 h2

/-- First scanned file of the aggregation example: one issue at line 3. -/
def c4_file_a : SourceFile :=
  { path := "a.py"
    lines := ["x = 1".data, "y = 2".data, "z = 3;".data]
    parsed := .ok (.module []) }

/-- Second scanned file of the aggregation example: one issue at line 1. -/
def c4_file_b : SourceFile :=
  { path := "b.py"
    lines := ["w = 4;".data]
    parsed := .ok (.module []) }

/-- Witness for C4: the issue of `a.py` at line 3 is reported before the
issue of `b.py` at line 1, and the combined list is `(path, line, code)`
ordered. -/
theorem C4_multi_file_order_witness :
    analyze_multi [(c4_file_a, std_orders), (c4_file_b, std_orders)] =
      .ok [⟨"a.py", 3, .S003, none⟩, ⟨"b.py", 1, .S003, none⟩] ∧
    List.Pairwise (fun a b =>
        pyStrLe a.path b.path = true ∧
          (a.path = b.path → line_code_le a b = true))
      [⟨"a.py", 3, .S003, none⟩, ⟨"b.py", 1, .S003, none⟩] := by
  refine ⟨by rfl, ?_⟩
  exact C4_multi_file_order [(c4_file_a, std_orders), (c4_file_b, std_orders)]
    [⟨"a.py", 3, .S003, none⟩, ⟨"b.py", 1, .S003, none⟩] (by decide) (by rfl)

/-- C5: determinism and single-file ordering.  Two runs on the same file with
any two duplicate-free enumerations of the same requested set — covering any
iteration order Python could use for the intersected rule sets — return
identical results, and every successful single-file result is sorted by
`(line, code)` ascending. -/
theorem C5_determinism_and_sorted (f : SourceFile) (req : IssueType → Bool)
    (o₁ o₂ : Orders) (h₁ : ValidOrders req o₁) (h₂ : ValidOrders req o₂) :
    analyze_single f o₁ = analyze_single f o₂ ∧
    ∀ out, analyze_single f o₁ = .ok out →
      out.Pairwise (fun a b => line_code_le a b = true) := by
  refine ⟨analyze_single_deterministic f h₁ h₂, fun out hout => ?_⟩
  obtain ⟨tree, _, houteq⟩ := analyze_single_ok hout
  rw [houteq]
  exact get_issues_sorted _

/-- A file with issues from several rules on several lines. -/
def c5_file : SourceFile :=
  { path := "w.py"
    lines := ["x = 1 # todo: later".data, "DEF = [1]".data, " y = 2;".data]
    parsed := .ok (.module [.assign 1 [.nameT "x"] .constLit,
      .assign 2 [.nameT "DEF"] .listLit, .otherStmt 3 []]) }

/-- Witness for C5: the registration-order run and the reversed-order run of
the full rule set agree, and the result is `(line, code)` sorted. -/
theorem C5_witness :
    analyze_single c5_file std_orders = analyze_single c5_file rev_orders ∧
    List.Pairwise (fun a b => line_code_le a b = true)
      [⟨"w.py", 1, .S004, none⟩, ⟨"w.py", 1, .S005, none⟩,
       ⟨"w.py", 3, .S002, none⟩, ⟨"w.py", 3, .S003, none⟩] := by
  have hv1 : ValidOrders (fun _ => true) std_orders := by
    refine ⟨⟨?_, ?_⟩, ⟨?_, ?_⟩, ⟨?_, ?_⟩, ⟨?_, ?_⟩, ⟨?_, ?_⟩⟩ <;>
      first | decide | (intro t; cases t <;> decide)
  have hv2 : ValidOrders (fun _ => true) rev_orders := by
    refine ⟨⟨?_, ?_⟩, ⟨?_, ?_⟩, ⟨?_, ?_⟩, ⟨?_, ?_⟩, ⟨?_, ?_⟩⟩ <;>
      first | decide | (intro t; cases t <;> decide)
  have h := C5_determinism_and_sorted c5_file (fun _ => true) std_orders
    rev_orders hv1 hv2
  exact ⟨h.1, h.2 _ (by rfl)⟩

/-- C6: every issue of a successful single-file run lies on a line within
`[1, lineCount]` — granted the parser invariant that every node of the tree
carries a line number within the file — and its code is registered in the
catalogue. -/
theorem C6_issue_bounds_and_registered (f : SourceFile) (o : Orders)
    (out : List CodeIssue) (hout : analyze_single f o = .ok out)
    (hwalk : ∀ tree, f.parsed = .ok tree → ∀ np ∈ ast_walk tree,
      1 ≤ np.1.lineno ∧ np.1.lineno ≤ f.lines.length) :
    ∀ i ∈ out, (1 ≤ i.line ∧ i.line ≤ f.lines.length) ∧
      i.type ∈ registered_codes := by
  obtain ⟨tree, hp, houteq⟩ := analyze_single_ok hout
  intro i hi
  rw [houteq] at hi
  obtain ⟨_, hcases⟩ := mem_run_cases (pySort_mem.mp hi)
  refine ⟨?_, mem_registered_codes i.type⟩
  rcases hcases with ⟨nl, hnl, hl⟩ | ⟨np, hnp, hl⟩
  · have hb := List.mem_enumFrom hnl
    have hb1 := hb.1
    have hb2 := hb.2.1
    rw [hl]
    omega
  · rw [hl]
    exact hwalk tree hp np hnp

/-- A two-line file used to instantiate the invariants. -/
def c6_file : SourceFile :=
  { path := "t.py"
    lines := ["x = 1 # c".data, "Xyz = [1]".data]
    parsed := .ok (.module [.assign 1 [.nameT "x"] .constLit,
      .assign 2 [.nameT "Xyz"] .listLit]) }

/-- Witness for C6 at the reported issue of the concrete file. -/
theorem C6_witness :
    (1 ≤ (⟨"t.py", 1, .S004, none⟩ : CodeIssue).line ∧
      (⟨"t.py", 1, .S004, none⟩ : CodeIssue).line ≤ c6_file.lines.length) ∧
    (⟨"t.py", 1, .S004, none⟩ : CodeIssue).type ∈ registered_codes := by
  have h := C6_issue_bounds_and_registered c6_file std_orders
    [⟨"t.py", 1, .S004, none⟩] (by rfl)
    (by
      intro tree hp np hnp
      injection hp with he
      subst he
      revert np
      decide)
  exact h ⟨"t.py", 1, .S004, none⟩ (List.mem_singleton.mpr rfl)

/-- C7: an unknown code in the exclude list is non-fatal.  When the comma
split of the exclude argument contains a token whose stripped uppercase form
is not a registered code, `filter_issue_types` returns exactly the selected
set it would return without that token, and its printed messages are those of
the run without the token with exactly one extra invalid-argument warning in
the position of the token. -/
theorem C7_unknown_exclude_code (arg : String) (pre post : List String)
    (u : String) (harg : arg ≠ "")
    (hsplit : pySplitStr ',' arg = pre ++ u :: post)
    (hu : issue_type_from_name (pyUpperStr (pyStripStr u)) = none) :
    (filter_issue_types arg).1 =
      (filter_loop (registered_codes, []) (pre ++ post)).1 ∧
    (filter_issue_types arg).2 =
      (filter_loop (registered_codes, []) pre).2 ++ [invalid_msg u] ++
        (filter_loop ((filter_loop (registered_codes, []) pre).1, []) post).2 ∧
    (filter_loop (registered_codes, []) (pre ++ post)).2 =
      (filter_loop (registered_codes, []) pre).2 ++
        (filter_loop ((filter_loop (registered_codes, []) pre).1, []) post).2 := by
  have hfit : filter_issue_types arg =
      filter_loop (registered_codes, []) (pre ++ u :: post) := by
    rw [filter_issue_types, if_pos harg, hsplit]
  have hpre : filter_loop (registered_codes, []) pre =
      ((filter_loop (registered_codes, []) pre).1,
        (filter_loop (registered_codes, []) pre).2) := rfl
  have hwith : filter_loop (registered_codes, []) (pre ++ u :: post) =
      ((filter_loop ((filter_loop (registered_codes, []) pre).1, []) post).1,
        (filter_loop (registered_codes, []) pre).2 ++ [invalid_msg u] ++
          (filter_loop ((filter_loop (registered_codes, []) pre).1, []) post).2) := by
    rw [filter_loop_append, hpre, filter_loop_cons,
      filter_step_invalid hu,
      filter_loop_warnings post (filter_loop (registered_codes, []) pre).1
        ((filter_loop (registered_codes, []) pre).2 ++ [invalid_msg u])]
  have hwithout : filter_loop (registered_codes, []) (pre ++ post) =
      ((filter_loop ((filter_loop (registered_codes, []) pre).1, []) post).1,
        (filter_loop (registered_codes, []) pre).2 ++
          (filter_loop ((filter_loop (registered_codes, []) pre).1, []) post).2) := by
    rw [filter_loop_append, hpre,
      filter_loop_warnings post (filter_loop (registered_codes, []) pre).1
        (filter_loop (registered_codes, []) pre).2]
  refine ⟨?_, ?_, ?_⟩
  · rw [hfit, hwith, hwithout]
  · rw [hfit, hwith]
  · rw [hwithout]

/-- Witness for C7 with the unknown code `S999` after the valid code
`S007`. -/
theorem C7_witness :
    (filter_issue_types "S007,S999").1 =
      (filter_loop (registered_codes, []) (["S007"] ++ [])).1 ∧
    (filter_issue_types "S007,S999").2 =
      (filter_loop (registered_codes, []) ["S007"]).2 ++
        ["Invalid argument: There is no issue type with code S999"] ++
        (filter_loop ((filter_loop (registered_codes, []) ["S007"]).1, []) []).2 := by
  have h := C7_unknown_exclude_code "S007,S999" ["S007"] [] "S999"
    (by decide) (by decide) (by decide)
  exact ⟨h.1, h.2.1⟩

/-- C8: the S001 rule at the 79-character boundary — no issue at exactly 79
characters, exactly one S001 issue at the line for 80 characters. -/
theorem C8_line_length_boundary (path : String) (line_no : Nat)
    (l79 l80 : Line) (h79 : l79.length = 79) (h80 : l80.length = 80) :
    long_line path line_no l79 = none ∧
    long_line path line_no l80 = some ⟨path, line_no, .S001, none⟩ := by
  constructor
  · simp [long_line, MAX_LINES, h79]
  · simp [long_line, MAX_LINES, h80]

/-- Witness for C8 on concrete 79- and 80-character lines. -/
theorem C8_witness :
    long_line "f.py" 1 (List.replicate 79 'a') = none ∧
    long_line "f.py" 1 (List.replicate 80 'a') =
      some ⟨"f.py", 1, .S001, none⟩ :=
  C8_line_length_boundary "f.py" 1 (List.replicate 79 'a')
    (List.replicate 80 'a') (by decide) (by decide)

/-- C9: the S004 rule, characterized on the surface of the line.  With a
comment marker present, a code part containing a non-whitespace character and
carrying fewer than two trailing whitespace characters is flagged; a code
part with two or more trailing whitespace characters is never flagged; and a
line whose text before the marker is all whitespace (a full-line comment) is
never flagged. -/
theorem C9_inline_comment_spacing (path : String) (line_no : Nat) (l : Line) :
    ('#' ∈ l →
      (∃ c ∈ l.takeWhile (· ≠ '#'), isPySpace c = false) →
      ((l.takeWhile (· ≠ '#')).reverse.takeWhile isPySpace).length < 2 →
      missing_spaces path line_no l = some ⟨path, line_no, .S004, none⟩) ∧
    (((l.takeWhile (· ≠ '#')).reverse.takeWhile isPySpace).length ≥ 2 →
      missing_spaces path line_no l = none) ∧
    ('#' ∈ l → (∀ c ∈ l.takeWhile (· ≠ '#'), isPySpace c = true) →
      missing_spaces path line_no l = none) := by
  have hc : (split_at_comment l).1 = l.takeWhile (· ≠ '#') :=
    congrArg Prod.fst (split_at_comment_eq l)
  refine ⟨?_, ?_, ?_⟩
  · intro hmem hex hcnt
    have hstrip : pyStrip (l.takeWhile (· ≠ '#')) ≠ [] := by
      intro he
      obtain ⟨c, hcmem, hcf⟩ := hex
      rw [pyStrip_eq_nil_iff] at he
      rw [he c hcmem] at hcf
      exact Bool.true_eq_false.mp hcf
    have hinline : has_inline_comment l = true :=
      (has_inline_comment_iff l).mpr ⟨hmem, hstrip⟩
    have hcnt2 : (split_at_comment l).1.length -
        (pyRstrip (split_at_comment l).1).length < 2 := by
      rw [hc, trailing_ws_count]
      exact hcnt
    simp [missing_spaces, hinline, hcnt2]
  · intro hcnt
    have hcond : ¬ ((split_at_comment l).1.length -
        (pyRstrip (split_at_comment l).1).length < 2) := by
      rw [hc, trailing_ws_count]
      omega
    simp [missing_spaces, hcond]
  · intro hmem hall
    have hinline : has_inline_comment l = false := by
      cases hb : has_inline_comment l
      · rfl
      · exfalso
        obtain ⟨_, hstrip⟩ := (has_inline_comment_iff l).mp hb
        exact hstrip ((pyStrip_eq_nil_iff _).mpr hall)
    simp [missing_spaces, hinline]

/-- Witness for C9 on the three example lines of the spec. -/
theorem C9_witness :
    missing_spaces "f.py" 1 "x = 1 # comment".data =
      some ⟨"f.py", 1, .S004, none⟩ ∧
    missing_spaces "f.py" 1 "x = 1  # comment".data = none ∧
    missing_spaces "f.py" 1 "# full line comment".data = none :=
  ⟨(C9_inline_comment_spacing "f.py" 1 "x = 1 # comment".data).1
      (by decide) (by decide) (by decide),
    (C9_inline_comment_spacing "f.py" 1 "x = 1  # comment".data).2.1
      (by decide),
    (C9_inline_comment_spacing "f.py" 1 "# full line comment".data).2.2
      (by decide) (by decide)⟩

/-- C10: `analyze` only appends to `found_issues` (the new state is the old
state followed by the issues of a fresh run), so `n` calls on the same
instance starting from an empty state accumulate every issue of a single run
exactly `n` times, as counted in the list that `get_issues` sorts in place
and returns. -/
theorem C10_analyze_accumulates (f : SourceFile) (o : Orders)
    (st : List CodeIssue) (n : Nat) (i : CodeIssue) :
    analyze_found f o st = st ++ analyze_found f o [] ∧
    List.count i (get_issues ((fun s => analyze_found f o s)^[n] [])) =
      n * List.count i (analyze_found f o []) := by
  have happ : ∀ s, analyze_found f o s = s ++ analyze_found f o [] := by
    intro s
    simp [analyze_found, List.append_assoc]
  refine ⟨happ st, ?_⟩
  have hcnt : ∀ (m : Nat) (s : List CodeIssue),
      List.count i ((fun s => analyze_found f o s)^[m] s) =
        List.count i s + m * List.count i (analyze_found f o []) := by
    intro m
    induction m with
    | zero => intro s; simp
    | succ m ih =>
      intro s
      rw [Function.iterate_succ_apply, ih, happ s, List.count_append]
      ring
  have hperm := (pySort_perm line_code_le
    ((fun s => analyze_found f o s)^[n] [])).count_eq i
  rw [get_issues, hperm, hcnt n []]
  simp
